import Mathlib

/-!
Verification development for the SALA lottery application.

The repository's `src/App.tsx` (together with `types.ts`) is the calling
layer: a React component that recomputes frequency statistics whenever the
historical-data text or the lottery configuration changes, and scores a
prediction against actual draw results.  The statistics module itself
(`utils/dataAnalysis.ts`, function `analyzeHistoricalData`) is not part of
the available sources; it is modelled here from the design document's
description of the frequency analyzer (parsing policy, hot/cold/overdue
ranking, recency convention, top-K truncation).  Strings are embedded as
lists of characters; JavaScript numbers appearing in draws are natural
numbers, since the extraction policy only ever produces runs of digits.
-/

/-- Inclusive numeric range, the `{min, max}` objects of `types.ts`. -/
structure NumRange where
  min : Nat
  max : Nat
deriving DecidableEq

/-- Structure `LotteryConfig` from `types.ts`: game label, size of the main draw,
inclusive bounds of the main pool, and the optional special pool. -/
structure LotteryConfig where
  gameName : String
  mainNumbersCount : Nat
  mainNumbersRange : NumRange
  specialName : Option String
  specialNumbersCount : Option Nat
  specialNumbersRange : Option NumRange
deriving DecidableEq

/-- Structure `NumberAnalysis` from `types.ts`: a candidate number together with its
metric (occurrence count for hot/cold, gap for overdue). -/
structure NumberAnalysis where
  number : Nat
  value : Nat
deriving DecidableEq

/-- Structure `AnalysisResults` from `types.ts`: the three ranked views. -/
structure AnalysisResults where
  hotNumbers : List NumberAnalysis
  coldNumbers : List NumberAnalysis
  overdueNumbers : List NumberAnalysis
deriving DecidableEq

/-- Structure `PredictedNumbers` from `types.ts`. -/
structure PredictedNumbers where
  mainNumbers : List Nat
  specialNumbers : List Nat
  explanation : String
deriving DecidableEq

/-- Structure `HitScore` from `types.ts`. -/
structure HitScore where
  mainHits : List Nat
  specialHits : List Nat
deriving DecidableEq

/-- One parsed historical draw: the retained main numbers and the retained
special numbers of a line, in line order. -/
structure Draw where
  main : List Nat
  special : List Nat
deriving DecidableEq

/-- Modelled from the spec: worker for the permissive integer extraction of
`analyzeHistoricalData` (absent `utils/dataAnalysis.ts`) — "any run of
digits, separated by non-digit delimiters".  The accumulator holds the value
of the digit run currently being read, if any. -/
def extractIntsGo : List Char → Option Nat → List Nat
  | [], none => []
  | [], some n => [n]
  | c :: cs, acc =>
    if c.isDigit then
      extractIntsGo cs (some (acc.getD 0 * 10 + (c.toNat - 48)))
    else
      match acc with
      | some n => n :: extractIntsGo cs none
      | none => extractIntsGo cs none

/-- Modelled from the spec: extract every maximal run of digits of a line as
a natural number, left to right. -/
def extractInts (line : List Char) : List Nat :=
  extractIntsGo line none

/-- Modelled from the spec: split the historical text into lines at newline
characters (the JavaScript `split("\n")` convention: `n` newlines yield
`n + 1` lines, possibly empty). -/
def splitLines : List Char → List (List Char)
  | [] => [[]]
  | c :: cs =>
    if c = '\n' then [] :: splitLines cs
    else
      match splitLines cs with
      | [] => [[c]]
      | l :: ls => (c :: l) :: ls

/-- Membership test for an inclusive range. -/
def inRange (r : NumRange) (n : Nat) : Bool :=
  decide (r.min ≤ n) && decide (n ≤ r.max)

/-- Modelled from the spec: parse one line of `analyzeHistoricalData`'s
input.  A line yielding fewer integers than `mainNumbersCount` is discarded
entirely; otherwise the first `mainNumbersCount` integers are the main
numbers and, when the config defines a special pool, the next
`specialNumbersCount` integers are the special numbers; numbers outside
their pool's bounds are discarded individually. -/
def parseLine (cfg : LotteryConfig) (line : List Char) : Option Draw :=
  if (extractInts line).length < cfg.mainNumbersCount then none
  else
    some ⟨((extractInts line).take cfg.mainNumbersCount).filter (inRange cfg.mainNumbersRange),
      match cfg.specialNumbersCount, cfg.specialNumbersRange with
      | some k, some r =>
        (((extractInts line).drop cfg.mainNumbersCount).take k).filter (inRange r)
      | _, _ => []⟩

/-- Modelled from the spec: the valid draws of the historical text, oldest
first (first line encountered is the oldest draw); empty lines are skipped,
and lines with too few integers are discarded by `parseLine`. -/
def validDraws (text : List Char) (cfg : LotteryConfig) : List Draw :=
  ((splitLines text).filter (fun l => !l.isEmpty)).filterMap (parseLine cfg)

/-- Occurrence count of `n` across the main-number lists of the given draws
(with multiplicity). -/
def drawsCount (draws : List Draw) (n : Nat) : Nat :=
  ((draws.map Draw.main).flatten).count n

/-- Modelled from the spec: the overdue gap of `n` — the number of draws
since its most recent occurrence, counted from the most recent draw (last
of the list) backwards; a number never seen gets the total draw count. -/
def gapOf (n : Nat) (draws : List Draw) : Nat :=
  draws.reverse.findIdx (fun d => decide (n ∈ d.main))

/-- The candidate main numbers: every integer of the inclusive main range,
ascending. -/
def rangeList (cfg : LotteryConfig) : List Nat :=
  List.range' cfg.mainNumbersRange.min (cfg.mainNumbersRange.max + 1 - cfg.mainNumbersRange.min)

/-- The ranking order of the result lists: primary key the metric `value`
(descending when `desc`, ascending otherwise), ties broken by ascending
numeric value. -/
def rankLE (desc : Bool) (a b : NumberAnalysis) : Prop :=
  (if desc then b.value < a.value else a.value < b.value) ∨
    (a.value = b.value ∧ a.number ≤ b.number)

instance (desc : Bool) : DecidableRel (rankLE desc) := fun a b => by
  unfold rankLE
  infer_instance

instance (desc : Bool) : IsTotal NumberAnalysis (rankLE desc) where
  total a b := by
    unfold rankLE
    cases desc <;> simp <;> omega

instance (desc : Bool) : IsTrans NumberAnalysis (rankLE desc) where
  trans a b c hab hbc := by
    unfold rankLE at *
    cases desc <;> simp_all <;> omega

/-- Modelled from the spec: the fixed top-K constant of the analyzer. -/
def topK : Nat := 5

/-- The per-number occurrence tallies of the main pool, one entry per
candidate number. -/
def countEntries (draws : List Draw) (cfg : LotteryConfig) : List NumberAnalysis :=
  (rangeList cfg).map (fun n => ⟨n, drawsCount draws n⟩)

/-- The per-number overdue gaps of the main pool, one entry per candidate
number. -/
def gapEntries (draws : List Draw) (cfg : LotteryConfig) : List NumberAnalysis :=
  (rangeList cfg).map (fun n => ⟨n, gapOf n draws⟩)

/-- The full hot ranking: tallies sorted descending by count, ties ascending
by numeric value. -/
def hotRanking (draws : List Draw) (cfg : LotteryConfig) : List NumberAnalysis :=
  List.insertionSort (rankLE true) (countEntries draws cfg)

/-- The full cold ranking: tallies sorted ascending by count, ties ascending
by numeric value. -/
def coldRanking (draws : List Draw) (cfg : LotteryConfig) : List NumberAnalysis :=
  List.insertionSort (rankLE false) (countEntries draws cfg)

/-- The full overdue ranking: gaps sorted descending, ties ascending by
numeric value. -/
def overdueRanking (draws : List Draw) (cfg : LotteryConfig) : List NumberAnalysis :=
  List.insertionSort (rankLE true) (gapEntries draws cfg)

/-- Modelled from the spec: the analysis proper, from parsed draws. -/
def analyzeDraws (draws : List Draw) (cfg : LotteryConfig) : AnalysisResults :=
  ⟨(hotRanking draws cfg).take topK,
   (coldRanking draws cfg).take topK,
   (overdueRanking draws cfg).take topK⟩

/-- Modelled from the spec: `analyzeHistoricalData` of the absent
`utils/dataAnalysis.ts` — parse the text into draws and rank the main-pool
statistics (the source's `AnalysisResults` carries a single hot/cold/overdue
triple). -/
def analyzeHistoricalData (text : List Char) (cfg : LotteryConfig) : AnalysisResults :=
  analyzeDraws (validDraws text cfg) cfg

/-- Occurrence count of `n` across the valid draws of a text. -/
def mainCount (text : List Char) (cfg : LotteryConfig) (n : Nat) : Nat :=
  drawsCount (validDraws text cfg) n

/-- Overdue gap of `n` for the valid draws of a text. -/
def mainGap (text : List Char) (cfg : LotteryConfig) (n : Nat) : Nat :=
  gapOf n (validDraws text cfg)

/-- From `src/App.tsx`, the effect on `[historicalData, config]`: when the
text is non-empty (JavaScript truthiness of a string), the analysis state is
replaced by a fresh run of `analyzeHistoricalData` on the current inputs;
otherwise it is set to `none`.  The previous analysis state is never read. -/
def recomputeEffect (prev : Option AnalysisResults) (historicalData : List Char)
    (cfg : LotteryConfig) : Option AnalysisResults :=
  if historicalData = [] then none
  else some (analyzeHistoricalData historicalData cfg)

/-- From `src/App.tsx`, `handleCheckScore`: with no prediction the hit-score
state is left unchanged; otherwise it becomes the predicted numbers filtered
by membership in the corresponding actual results. -/
def handleCheckScore (predictedNumbers : Option PredictedNumbers)
    (prevHitScore : Option HitScore)
    (actualMain actualSpecial : List Nat) : Option HitScore :=
  match predictedNumbers with
  | none => prevHitScore
  | some p =>
    some ⟨p.mainNumbers.filter (fun num => actualMain.contains num),
          p.specialNumbers.filter (fun num => actualSpecial.contains num)⟩

/-! Concrete inputs used by witnesses and counterexamples -/

/-- The text "1 2 3 4 5\n6 7 8 9 10": two draws, the first line oldest. -/
def textTwoDraws : List Char :=
  ['1', ' ', '2', ' ', '3', ' ', '4', ' ', '5', '\n',
   '6', ' ', '7', ' ', '8', ' ', '9', ' ', '1', '0']

/-- The text "1 2 3 4 5\n1 2 3 4 6\n2 3 4 5 7": three draws. -/
def textThreeDraws : List Char :=
  ['1', ' ', '2', ' ', '3', ' ', '4', ' ', '5', '\n',
   '1', ' ', '2', ' ', '3', ' ', '4', ' ', '6', '\n',
   '2', ' ', '3', ' ', '4', ' ', '5', ' ', '7']

/-- The malformed line "a b c" (no parseable integers). -/
def lineMalformed : List Char := ['a', ' ', 'b', ' ', 'c']

/-- The text "1 99": two integers, the second out of range for small pools. -/
def textOutOfRange : List Char := ['1', ' ', '9', '9']

/-- A 5-from-1..10 game without a special pool. -/
def cfgTen : LotteryConfig := ⟨"demo", 5, ⟨1, 10⟩, none, none, none⟩

/-- A 5-from-1..12 game without a special pool. -/
def cfgTwelve : LotteryConfig := ⟨"demo", 5, ⟨1, 12⟩, none, none, none⟩

/-- A 5-from-1..13 game without a special pool. -/
def cfgThirteen : LotteryConfig := ⟨"demo", 5, ⟨1, 13⟩, none, none, none⟩

/-- A 2-from-1..5 game without a special pool. -/
def cfgPair : LotteryConfig := ⟨"demo", 2, ⟨1, 5⟩, none, none, none⟩

/-! Parsing lemmas -/

lemma splitLines_append (line rest : List Char) (h : '\n' ∉ line) :
    splitLines (line ++ '\n' :: rest) = line :: splitLines rest := by
  induction line with
  | nil =>
    show splitLines ('\n' :: rest) = [] :: splitLines rest
    simp [splitLines]
  | cons c l ih =>
    have hc : c ≠ '\n' := fun hc => h (hc ▸ List.mem_cons_self c l)
    have hl : '\n' ∉ l := fun hm => h (List.mem_cons_of_mem c hm)
    show splitLines (c :: (l ++ '\n' :: rest)) = (c :: l) :: splitLines rest
    rw [splitLines, if_neg hc, ih hl]

lemma parseLine_eq_none (cfg : LotteryConfig) (line : List Char)
    (h : (extractInts line).length < cfg.mainNumbersCount) :
    parseLine cfg line = none := by
  rw [parseLine, if_pos h]

lemma parseLine_eq_some (cfg : LotteryConfig) (line : List Char)
    (h : cfg.mainNumbersCount ≤ (extractInts line).length) :
    ∃ d : Draw, parseLine cfg line = some d ∧
      d.main = ((extractInts line).take cfg.mainNumbersCount).filter
        (inRange cfg.mainNumbersRange) := by
  rw [parseLine, if_neg (Nat.not_lt.mpr h)]
  exact ⟨_, rfl, rfl⟩

lemma validDraws_skip (cfg : LotteryConfig) (line text : List Char)
    (h : '\n' ∉ line) (hlen : (extractInts line).length < cfg.mainNumbersCount) :
    validDraws (line ++ '\n' :: text) cfg = validDraws text cfg := by
  unfold validDraws
  rw [splitLines_append line text h]
  by_cases hl : line.isEmpty
  · simp [List.filter_cons, hl]
  · simp only [List.filter_cons, hl, Bool.not_false, if_pos]
    rw [List.filterMap_cons, parseLine_eq_none cfg line hlen]

lemma validDraws_keep (cfg : LotteryConfig) (line text : List Char)
    (h : '\n' ∉ line) (hne : line ≠ [])
    (hlen : cfg.mainNumbersCount ≤ (extractInts line).length) :
    ∃ d : Draw, parseLine cfg line = some d ∧
      validDraws (line ++ '\n' :: text) cfg = d :: validDraws text cfg ∧
      d.main = ((extractInts line).take cfg.mainNumbersCount).filter
        (inRange cfg.mainNumbersRange) := by
  obtain ⟨d, hd, hmain⟩ := parseLine_eq_some cfg line hlen
  refine ⟨d, hd, ?_, hmain⟩
  unfold validDraws
  rw [splitLines_append line text h]
  have hl : line.isEmpty = false := by
    cases line with
    | nil => exact absurd rfl hne
    | cons a l => rfl
  simp only [List.filter_cons, hl, Bool.not_false, if_pos]
  rw [List.filterMap_cons, hd]

lemma drawsCount_cons (d : Draw) (ds : List Draw) (n : Nat) :
    drawsCount (d :: ds) n = d.main.count n + drawsCount ds n := by
  unfold drawsCount
  simp [List.count_append]

lemma mem_rangeList (cfg : LotteryConfig) (n : Nat) :
    n ∈ rangeList cfg ↔
      cfg.mainNumbersRange.min ≤ n ∧ n ≤ cfg.mainNumbersRange.max := by
  unfold rangeList
  rw [List.mem_range'_1]
  constructor <;> intro h <;> omega

lemma nodup_rangeList (cfg : LotteryConfig) : (rangeList cfg).Nodup :=
  List.nodup_range' _ _

lemma validDraws_main_inRange (cfg : LotteryConfig) (text : List Char) (d : Draw)
    (hd : d ∈ validDraws text cfg) :
    ∀ x ∈ d.main, inRange cfg.mainNumbersRange x = true := by
  unfold validDraws at hd
  obtain ⟨line, -, hp⟩ := List.mem_filterMap.mp hd
  rw [parseLine] at hp
  split at hp
  · exact absurd hp (by simp)
  · obtain rfl := Option.some.inj hp
    intro x hx
    exact (List.mem_filter.mp hx).2

lemma validDraws_main_length (cfg : LotteryConfig) (text : List Char) (d : Draw)
    (hd : d ∈ validDraws text cfg) :
    d.main.length ≤ cfg.mainNumbersCount := by
  unfold validDraws at hd
  obtain ⟨line, -, hp⟩ := List.mem_filterMap.mp hd
  rw [parseLine] at hp
  split at hp
  · exact absurd hp (by simp)
  · obtain rfl := Option.some.inj hp
    exact le_trans (List.length_filter_le _ _) (List.length_take_le _ _)

lemma mem_allMains_mem_rangeList (cfg : LotteryConfig) (text : List Char) (x : Nat)
    (hx : x ∈ (((validDraws text cfg).map Draw.main).flatten)) :
    x ∈ rangeList cfg := by
  obtain ⟨m, hm, hxm⟩ := List.mem_flatten.mp hx
  obtain ⟨d, hd, rfl⟩ := List.mem_map.mp hm
  have h := validDraws_main_inRange cfg text d hd x hxm
  rw [inRange, Bool.and_eq_true, decide_eq_true_eq, decide_eq_true_eq] at h
  exact (mem_rangeList cfg x).mpr h

lemma sum_map_eq_indicator (x : Nat) :
    ∀ ns : List Nat, ns.Nodup → x ∈ ns →
      (ns.map fun n => if x = n then 1 else 0).sum = 1 := by
  intro ns
  induction ns with
  | nil => intro _ hx; cases hx
  | cons a t ih =>
    intro hnd hx
    rcases List.mem_cons.mp hx with rfl | hmem
    · have hxt : x ∉ t := (List.nodup_cons.mp hnd).1
      have hz : (t.map fun n => if x = n then 1 else 0).sum = 0 := by
        apply List.sum_eq_zero
        intro y hy
        obtain ⟨n, hn, rfl⟩ := List.mem_map.mp hy
        have hne : x ≠ n := fun h => hxt (h ▸ hn)
        simp [hne]
      simp [hz]
    · have ha : x ≠ a := fun h => (List.nodup_cons.mp hnd).1 (h ▸ hmem)
      have := ih (List.nodup_cons.mp hnd).2 hmem
      simp [ha, this]

lemma sum_map_count_eq_length :
    ∀ (l ns : List Nat), ns.Nodup → (∀ x ∈ l, x ∈ ns) →
      (ns.map fun n => l.count n).sum = l.length := by
  intro l
  induction l with
  | nil => intro ns _ _; simp
  | cons x t ih =>
    intro ns hnd hsub
    have hx : x ∈ ns := hsub x (List.mem_cons_self x t)
    have ht : ∀ y ∈ t, y ∈ ns := fun y hy => hsub y (List.mem_cons_of_mem x hy)
    have hcong : (ns.map fun n => (x :: t).count n)
        = ns.map fun n => t.count n + if x = n then 1 else 0 := by
      apply List.map_congr_left
      intro n _
      rw [List.count_cons]
      simp only [beq_iff_eq]
    rw [hcong, List.sum_map_add, ih ns hnd ht, sum_map_eq_indicator x ns hnd hx,
      List.length_cons]

/-! Ranking lemmas -/

lemma mem_of_mem_take_insertionSort (r : NumberAnalysis → NumberAnalysis → Prop)
    [DecidableRel r] (l : List NumberAnalysis) (k : Nat) (e : NumberAnalysis)
    (he : e ∈ (List.insertionSort r l).take k) : e ∈ l :=
  (List.perm_insertionSort r l).mem_iff.mp
    (List.Sublist.mem he (List.take_sublist k (List.insertionSort r l)))

lemma mem_countEntries (draws : List Draw) (cfg : LotteryConfig) (e : NumberAnalysis)
    (he : e ∈ countEntries draws cfg) :
    e.number ∈ rangeList cfg ∧ e.value = drawsCount draws e.number := by
  obtain ⟨n, hn, rfl⟩ := List.mem_map.mp he
  exact ⟨hn, rfl⟩

lemma mem_gapEntries (draws : List Draw) (cfg : LotteryConfig) (e : NumberAnalysis)
    (he : e ∈ gapEntries draws cfg) :
    e.number ∈ rangeList cfg ∧ e.value = gapOf e.number draws := by
  obtain ⟨n, hn, rfl⟩ := List.mem_map.mp he
  exact ⟨hn, rfl⟩

lemma sorted_take_insertionSort (r : NumberAnalysis → NumberAnalysis → Prop)
    [DecidableRel r] [IsTotal NumberAnalysis r] [IsTrans NumberAnalysis r]
    (l : List NumberAnalysis) (k : Nat) :
    List.Sorted r ((List.insertionSort r l).take k) :=
  List.Pairwise.sublist (List.take_sublist k (List.insertionSort r l))
    (List.sorted_insertionSort r l)

lemma rankLE_true_value_le (a b : NumberAnalysis) (h : rankLE true a b) :
    b.value ≤ a.value := by
  unfold rankLE at h
  simp only [if_pos] at h
  omega

lemma rankLE_false_value_le (a b : NumberAnalysis) (h : rankLE false a b) :
    a.value ≤ b.value := by
  unfold rankLE at h
  simp only [Bool.false_eq_true, if_neg, if_false] at h
  omega

/-! Overdue gap lemmas -/

lemma gapOf_of_not_mem (n : Nat) (draws : List Draw)
    (h : ∀ d ∈ draws, n ∉ d.main) : gapOf n draws = draws.length := by
  unfold gapOf
  rw [← List.length_reverse]
  apply List.findIdx_eq_length.mpr
  intro d hd
  simpa using h d (List.mem_reverse.mp hd)

lemma gapOf_last_occurrence (n : Nat) (older recent : List Draw) (d : Draw)
    (hd : n ∈ d.main) (hr : ∀ d' ∈ recent, n ∉ d'.main) :
    gapOf n (older ++ d :: recent) = recent.length := by
  unfold gapOf
  rw [List.reverse_append, List.reverse_cons, List.append_assoc]
  have h1 : List.findIdx (fun x => decide (n ∈ x.main)) recent.reverse
      = recent.reverse.length := by
    apply List.findIdx_eq_length.mpr
    intro d' hd'
    simpa using hr d' (List.mem_reverse.mp hd')
  rw [List.findIdx_append, h1, if_neg (lt_irrefl _)]
  have h2 : List.findIdx (fun x => decide (n ∈ x.main)) ([d] ++ older.reverse) = 0 := by
    rw [List.singleton_append, List.findIdx_cons]
    simp [hd]
  rw [h2, List.length_reverse, Nat.zero_add]

/-! Claims -/

/-- Claim C1: `analyzeHistoricalData` is total over its input domain — every
text and config yield an `AnalysisResults` value — and a malformed line
(fewer extracted integers than `mainNumbersCount`) is skipped without
affecting the rest of the computation. -/
theorem analyzeHistoricalData_total (text junk : List Char) (cfg : LotteryConfig) :
    (∃ r : AnalysisResults, analyzeHistoricalData text cfg = r) ∧
    ('\n' ∉ junk → (extractInts junk).length < cfg.mainNumbersCount →
      analyzeHistoricalData (junk ++ '\n' :: text) cfg
        = analyzeHistoricalData text cfg) := by
  refine ⟨⟨_, rfl⟩, fun h1 h2 => ?_⟩
  unfold analyzeHistoricalData
  rw [validDraws_skip cfg junk text h1 h2]

/-- Witness for C1 at the malformed line "a b c" prepended to a concrete
three-draw text. -/
theorem analyzeHistoricalData_total_witness :
    ('\n' ∉ lineMalformed ∧
      (extractInts lineMalformed).length < cfgTen.mainNumbersCount) ∧
    analyzeHistoricalData (lineMalformed ++ '\n' :: textThreeDraws) cfgTen
      = analyzeHistoricalData textThreeDraws cfgTen :=
  ⟨⟨by decide, by decide⟩,
    (analyzeHistoricalData_total textThreeDraws lineMalformed cfgTen).2
      (by decide) (by decide)⟩

/-- Claim C2: a line with fewer extracted integers than `mainNumbersCount`
contributes nothing to any tally, while a line with enough integers becomes
one draw whose main numbers are the in-range ones among its first
`mainNumbersCount` integers, and those still count. -/
theorem parsing_policy (cfg : LotteryConfig) (line text : List Char)
    (h : '\n' ∉ line) :
    ((extractInts line).length < cfg.mainNumbersCount →
      validDraws (line ++ '\n' :: text) cfg = validDraws text cfg ∧
      ∀ n, mainCount (line ++ '\n' :: text) cfg n = mainCount text cfg n) ∧
    (line ≠ [] → cfg.mainNumbersCount ≤ (extractInts line).length →
      ∃ d : Draw, validDraws (line ++ '\n' :: text) cfg = d :: validDraws text cfg ∧
        d.main = ((extractInts line).take cfg.mainNumbersCount).filter
          (inRange cfg.mainNumbersRange) ∧
        ∀ n, mainCount (line ++ '\n' :: text) cfg n
          = d.main.count n + mainCount text cfg n) := by
  constructor
  · intro hlen
    have hv := validDraws_skip cfg line text h hlen
    refine ⟨hv, fun n => ?_⟩
    unfold mainCount
    rw [hv]
  · intro hne hlen
    obtain ⟨d, hp, hv, hmain⟩ := validDraws_keep cfg line text h hne hlen
    refine ⟨d, hv, hmain, fun n => ?_⟩
    unfold mainCount
    rw [hv, drawsCount_cons]

/-- Witness for C2: the malformed line "a b c" contributes nothing, and the
line "1 99" (enough integers, one out of range for a 2-from-1..5 game)
contributes a draw whose surviving main number still counts. -/
theorem parsing_policy_witness :
    validDraws (lineMalformed ++ '\n' :: textTwoDraws) cfgTen
      = validDraws textTwoDraws cfgTen ∧
    ∃ d : Draw, validDraws (textOutOfRange ++ '\n' :: textTwoDraws) cfgPair
        = d :: validDraws textTwoDraws cfgPair ∧
      d.main = ((extractInts textOutOfRange).take cfgPair.mainNumbersCount).filter
        (inRange cfgPair.mainNumbersRange) ∧
      ∀ n, mainCount (textOutOfRange ++ '\n' :: textTwoDraws) cfgPair n
        = d.main.count n + mainCount textTwoDraws cfgPair n :=
  ⟨((parsing_policy cfgTen lineMalformed textTwoDraws (by decide)).1 (by decide)).1,
   (parsing_policy cfgPair textOutOfRange textTwoDraws (by decide)).2
     (by decide) (by decide)⟩

/-- Claim C3: draws are ordered first-line-oldest; the overdue value of a
number is the count of draws strictly after its most recent occurrence, a
never-seen number gets the total draw count, and every entry of the
returned overdue list carries exactly this gap. -/
theorem overdue_gap_semantics (text : List Char) (cfg : LotteryConfig) :
    (∀ n : Nat, (∀ d ∈ validDraws text cfg, n ∉ d.main) →
      mainGap text cfg n = (validDraws text cfg).length) ∧
    (∀ (n : Nat) (older recent : List Draw) (d : Draw),
      validDraws text cfg = older ++ d :: recent → n ∈ d.main →
      (∀ d' ∈ recent, n ∉ d'.main) → mainGap text cfg n = recent.length) ∧
    (∀ e ∈ (analyzeHistoricalData text cfg).overdueNumbers,
      e.value = mainGap text cfg e.number) := by
  refine ⟨fun n h => gapOf_of_not_mem n _ h,
    fun n older recent d heq hd hr => ?_, fun e he => ?_⟩
  · unfold mainGap
    rw [heq]
    exact gapOf_last_occurrence n older recent d hd hr
  · have hmem : e ∈ gapEntries (validDraws text cfg) cfg :=
      mem_of_mem_take_insertionSort (rankLE true)
        (gapEntries (validDraws text cfg) cfg) topK e he
    exact (mem_gapEntries _ cfg e hmem).2

/-- Witness for C3 at the spec's scenario: draws "1 2 3 4 5" (oldest) then
"6 7 8 9 10" (newest) with range 1..12 — number 1 has gap 1, the never
drawn number 11 has gap 2. -/
theorem overdue_gap_semantics_witness :
    mainGap textTwoDraws cfgTwelve 1 = 1 ∧ mainGap textTwoDraws cfgTwelve 11 = 2 := by
  constructor
  · have h := (overdue_gap_semantics textTwoDraws cfgTwelve).2.1 1
      [] [⟨[6, 7, 8, 9, 10], []⟩] ⟨[1, 2, 3, 4, 5], []⟩
      (by decide) (by decide) (by decide)
    exact h
  · have h := (overdue_gap_semantics textTwoDraws cfgTwelve).1 11 (by decide)
    exact h.trans (by decide)

/-- Claim C4: the hot list is sorted descending by count with ties ascending
by number, the cold list ascending by count, the overdue list descending by
gap; consequently hot and overdue values are monotonically non-increasing
along their lists and cold values non-decreasing. -/
theorem results_ordering (text : List Char) (cfg : LotteryConfig) :
    List.Sorted (rankLE true) (analyzeHistoricalData text cfg).hotNumbers ∧
    List.Sorted (rankLE false) (analyzeHistoricalData text cfg).coldNumbers ∧
    List.Sorted (rankLE true) (analyzeHistoricalData text cfg).overdueNumbers ∧
    (analyzeHistoricalData text cfg).hotNumbers.Pairwise
      (fun a b => b.value ≤ a.value) ∧
    (analyzeHistoricalData text cfg).coldNumbers.Pairwise
      (fun a b => a.value ≤ b.value) ∧
    (analyzeHistoricalData text cfg).overdueNumbers.Pairwise
      (fun a b => b.value ≤ a.value) := by
  have h1 : List.Sorted (rankLE true) (analyzeHistoricalData text cfg).hotNumbers :=
    sorted_take_insertionSort (rankLE true)
      (countEntries (validDraws text cfg) cfg) topK
  have h2 : List.Sorted (rankLE false) (analyzeHistoricalData text cfg).coldNumbers :=
    sorted_take_insertionSort (rankLE false)
      (countEntries (validDraws text cfg) cfg) topK
  have h3 : List.Sorted (rankLE true) (analyzeHistoricalData text cfg).overdueNumbers :=
    sorted_take_insertionSort (rankLE true)
      (gapEntries (validDraws text cfg) cfg) topK
  exact ⟨h1, h2, h3,
    List.Pairwise.imp (fun h => rankLE_true_value_le _ _ h) h1,
    List.Pairwise.imp (fun h => rankLE_false_value_le _ _ h) h2,
    List.Pairwise.imp (fun h => rankLE_true_value_le _ _ h) h3⟩

/-- Counterexample to C5 as stated: for a 5-from-1..13 game and the three
draws "1 2 3 4 5", "1 2 3 4 6", "2 3 4 5 7", the number 13 has zero
occurrences yet does not appear in the returned cold list (six zero-count
candidates compete for five slots and ties are broken by ascending value). -/
theorem cold_zero_counterexample :
    mainCount textThreeDraws cfgThirteen 13 = 0 ∧
    ∀ e ∈ (analyzeHistoricalData textThreeDraws cfgThirteen).coldNumbers,
      e.number ≠ 13 := by
  decide

/-- Claim C5 (amended): every in-range number — zero occurrences included —
is a cold candidate, appearing with its count in the full cold ranking of
which the returned cold list is the `topK`-prefix; in the spec's scenario
(5-from-1..10, the three draws above) the numbers 8, 9, 10 do appear in the
returned cold list with count 0. -/
theorem cold_candidates :
    (∀ (text : List Char) (cfg : LotteryConfig) (n : Nat), n ∈ rangeList cfg →
      (⟨n, mainCount text cfg n⟩ : NumberAnalysis)
          ∈ coldRanking (validDraws text cfg) cfg ∧
      (analyzeHistoricalData text cfg).coldNumbers
          = (coldRanking (validDraws text cfg) cfg).take topK) ∧
    ∀ n ∈ ([8, 9, 10] : List Nat),
      (⟨n, 0⟩ : NumberAnalysis)
        ∈ (analyzeHistoricalData textThreeDraws cfgTen).coldNumbers := by
  constructor
  · intro text cfg n hn
    refine ⟨?_, rfl⟩
    apply (List.perm_insertionSort (rankLE false) _).mem_iff.mpr
    exact List.mem_map.mpr ⟨n, hn, rfl⟩
  · decide

/-- Witness for C5 (amended): the zero-count number 8 is a cold candidate of
the scenario's ranking. -/
theorem cold_candidates_witness :
    (⟨8, mainCount textThreeDraws cfgTen 8⟩ : NumberAnalysis)
      ∈ coldRanking (validDraws textThreeDraws cfgTen) cfgTen :=
  (cold_candidates.1 textThreeDraws cfgTen 8 (by decide)).1

/-- Counterexample to C6 as stated: for a 2-from-1..5 game and the single
line "1 99", the line is a valid draw (two integers) but 99 is discarded
individually, so the counts sum to 1, not `2 × 1`. -/
theorem count_conservation_counterexample :
    ((rangeList cfgPair).map (mainCount textOutOfRange cfgPair)).sum
      ≠ cfgPair.mainNumbersCount * (validDraws textOutOfRange cfgPair).length := by
  decide

/-- Claim C6 (amended): the counts of one analysis run sum to the total
number of retained (in-range) main numbers across the valid draws; this is
at most `mainNumbersCount × (number of valid draws)`, with the shortfall
exactly the individually discarded out-of-range numbers. -/
theorem count_conservation (text : List Char) (cfg : LotteryConfig) :
    ((rangeList cfg).map (mainCount text cfg)).sum
      = ((validDraws text cfg).map (fun d => d.main.length)).sum ∧
    ((rangeList cfg).map (mainCount text cfg)).sum
      ≤ cfg.mainNumbersCount * (validDraws text cfg).length := by
  have h1 := sum_map_count_eq_length (((validDraws text cfg).map Draw.main).flatten)
    (rangeList cfg) (nodup_rangeList cfg)
    (fun x hx => mem_allMains_mem_rangeList cfg text x hx)
  have hmc : (rangeList cfg).map (mainCount text cfg)
      = (rangeList cfg).map
          (fun n => (((validDraws text cfg).map Draw.main).flatten).count n) := rfl
  constructor
  · rw [hmc, h1, List.length_flatten, List.map_map]
    rfl
  · rw [hmc, h1, List.length_flatten, List.map_map]
    have hb : ∀ x ∈ (validDraws text cfg).map (List.length ∘ Draw.main),
        x ≤ cfg.mainNumbersCount := by
      intro x hx
      obtain ⟨d, hd, rfl⟩ := List.mem_map.mp hx
      exact validDraws_main_length cfg text d hd
    have hs := List.sum_le_card_nsmul _ _ hb
    simpa [smul_eq_mul, Nat.mul_comm] using hs

/-- Claim C7: every entry of every returned list carries a number inside the
inclusive main-pool bounds of the config. -/
theorem results_in_range (text : List Char) (cfg : LotteryConfig)
    (e : NumberAnalysis)
    (he : e ∈ (analyzeHistoricalData text cfg).hotNumbers ∨
          e ∈ (analyzeHistoricalData text cfg).coldNumbers ∨
          e ∈ (analyzeHistoricalData text cfg).overdueNumbers) :
    cfg.mainNumbersRange.min ≤ e.number ∧
      e.number ≤ cfg.mainNumbersRange.max := by
  have hmem : e.number ∈ rangeList cfg := by
    rcases he with h | h | h
    · exact (mem_countEntries _ cfg e
        (mem_of_mem_take_insertionSort (rankLE true) _ topK e h)).1
    · exact (mem_countEntries _ cfg e
        (mem_of_mem_take_insertionSort (rankLE false) _ topK e h)).1
    · exact (mem_gapEntries _ cfg e
        (mem_of_mem_take_insertionSort (rankLE true) _ topK e h)).1
  exact (mem_rangeList cfg e.number).mp hmem

/-- Witness for C7 at the hot entry `⟨2, 3⟩` of the three-draw scenario. -/
theorem results_in_range_witness :
    cfgTen.mainNumbersRange.min ≤ (⟨2, 3⟩ : NumberAnalysis).number ∧
      (⟨2, 3⟩ : NumberAnalysis).number ≤ cfgTen.mainNumbersRange.max :=
  results_in_range textThreeDraws cfgTen ⟨2, 3⟩ (Or.inl (by decide))

/-- Claim C8: the recompute effect of the calling layer replaces the
analysis state wholesale — its outcome never depends on the previous state,
and for any non-empty text it is a fresh run of `analyzeHistoricalData` on
the current inputs. -/
theorem recompute_replaces_wholesale (prev prevOther : Option AnalysisResults)
    (historicalData : List Char) (cfg : LotteryConfig) :
    recomputeEffect prev historicalData cfg
        = recomputeEffect prevOther historicalData cfg ∧
    (historicalData ≠ [] →
      recomputeEffect prev historicalData cfg
        = some (analyzeHistoricalData historicalData cfg)) := by
  refine ⟨rfl, fun h => ?_⟩
  rw [recomputeEffect, if_neg h]

/-- Witness for C8 at a stale previous state and the non-empty text "1". -/
theorem recompute_replaces_wholesale_witness :
    recomputeEffect (some ⟨[], [], []⟩) ['1'] cfgTen
        = recomputeEffect none ['1'] cfgTen ∧
    recomputeEffect (some ⟨[], [], []⟩) ['1'] cfgTen
        = some (analyzeHistoricalData ['1'] cfgTen) :=
  ⟨(recompute_replaces_wholesale (some ⟨[], [], []⟩) none ['1'] cfgTen).1,
   (recompute_replaces_wholesale (some ⟨[], [], []⟩) none ['1'] cfgTen).2
     (by decide)⟩

/-- Claim C9: with a prediction present, `handleCheckScore` produces the hit
lists as the predicted numbers that occur among the actual ones — keeping
the prediction's order and duplicates (a sublist of the prediction, whose
multiplicities are those of the prediction for actual numbers and zero
otherwise) — and with no prediction it leaves the hit-score state
unchanged. -/
theorem handleCheckScore_hits (p : PredictedNumbers) (prev : Option HitScore)
    (actualMain actualSpecial : List Nat) :
    handleCheckScore none prev actualMain actualSpecial = prev ∧
    ∃ hs : HitScore,
      handleCheckScore (some p) prev actualMain actualSpecial = some hs ∧
      hs.mainHits.Sublist p.mainNumbers ∧
      (∀ n, hs.mainHits.count n
        = if n ∈ actualMain then p.mainNumbers.count n else 0) ∧
      hs.specialHits.Sublist p.specialNumbers ∧
      (∀ n, hs.specialHits.count n
        = if n ∈ actualSpecial then p.specialNumbers.count n else 0) := by
  refine ⟨rfl, ⟨_, rfl, List.filter_sublist _, fun n => ?_,
    List.filter_sublist _, fun n => ?_⟩⟩
  · by_cases hn : n ∈ actualMain
    · rw [if_pos hn]
      exact List.count_filter (by simpa [List.contains, List.elem_iff] using hn)
    · rw [if_neg hn]
      apply List.count_eq_zero_of_not_mem
      intro hmem
      exact hn (by simpa [List.contains, List.elem_iff] using
        (List.mem_filter.mp hmem).2)
  · by_cases hn : n ∈ actualSpecial
    · rw [if_pos hn]
      exact List.count_filter (by simpa [List.contains, List.elem_iff] using hn)
    · rw [if_neg hn]
      apply List.count_eq_zero_of_not_mem
      intro hmem
      exact hn (by simpa [List.contains, List.elem_iff] using
        (List.mem_filter.mp hmem).2)

/-- Claim C10: with empty historical data the recompute effect sets the
analysis state to `none` — the app-level result for empty input is "no data
yet", never the analyzer's output on the empty string. -/
theorem empty_input_yields_none (prev : Option AnalysisResults)
    (cfg : LotteryConfig) :
    recomputeEffect prev [] cfg = none ∧
    recomputeEffect prev [] cfg ≠ some (analyzeHistoricalData [] cfg) := by
  refine ⟨rfl, ?_⟩
  rw [recomputeEffect, if_pos rfl]
  exact fun h => Option.noConfusion h
